import Mathlib

/-!
Shallow embedding of `src/predictor/main.py` (the forecasting loop of the
predictive-scaling service).  Values and timestamps are modelled as rationals,
pandas missing values (`NaN`) as `Option`, and the sklearn numeric kernels
(the float square root inside `StandardScaler`, the fitted Lasso predictor)
as oracle parameters, so every structural step of the iteration — sorting,
resampling, gap filling, lagging, scaling, splitting, clamping, publishing —
is an executable Lean function mirroring the source line by line.
-/

namespace Predictor

/-- Ordering of raw points by timestamp, as used by `df.sort_values("ts")`
(main.py line 157). -/
def tsLE (a b : ℚ × ℚ) : Prop := a.1 ≤ b.1

instance : DecidableRel tsLE := fun a b => inferInstanceAs (Decidable (a.1 ≤ b.1))

instance : IsTotal (ℚ × ℚ) tsLE := ⟨fun a b => le_total a.1 b.1⟩

instance : IsTrans (ℚ × ℚ) tsLE := ⟨fun _ _ _ h h' => le_trans h h'⟩

/-- Model of `df.sort_values("ts")` (main.py line 157): sort the raw points
ascending by timestamp. -/
def sortPoints (pts : List (ℚ × ℚ)) : List (ℚ × ℚ) :=
  List.insertionSort tsLE pts

/-- The 5-second resampling bucket a timestamp falls into
(`s.resample("5s")`, main.py line 161): bucket `b` covers `[5b, 5b+5)`. -/
def bucketOf (t : ℚ) : ℤ := ⌊t / 5⌋

/-- Values of the points landing in bucket `b`. -/
def bucketVals (ps : List (ℚ × ℚ)) (b : ℤ) : List ℚ :=
  (ps.filter (fun p => bucketOf p.1 = b)).map Prod.snd

/-- Mean aggregation (`.mean()`) within one bucket: `none` models the `NaN`
pandas leaves in an empty bucket. -/
def meanOpt (l : List ℚ) : Option ℚ :=
  if l.isEmpty then none else some (l.sum / (l.length : ℚ))

/-- Consecutive integers `a, a+1, …, b` (the resampler's bucket index). -/
def rangeInt (a b : ℤ) : List ℤ :=
  (List.range (b + 1 - a).toNat).map (fun i : ℕ => a + (i : ℤ))

/-- Forward fill, carrying the last seen value over `NaN` slots
(`.ffill()`, main.py line 161). -/
def ffillGo (carry : Option ℚ) : List (Option ℚ) → List (Option ℚ)
  | [] => []
  | some v :: rest => some v :: ffillGo (some v) rest
  | none :: rest => carry :: ffillGo carry rest

/-- Model of `.ffill()`: propagate the nearest earlier value forward. -/
def ffill (l : List (Option ℚ)) : List (Option ℚ) := ffillGo none l

/-- Model of `.bfill()`: propagate the nearest later value backward
(main.py line 161). -/
def bfill (l : List (Option ℚ)) : List (Option ℚ) :=
  (ffillGo none l.reverse).reverse

/-- Model of `s.resample("5s").mean().ffill().bfill()` on an already sorted
point list (main.py lines 159–161): buckets run from the first point's bucket to
the last point's bucket; each bucket holds the mean of its points, gaps are
forward- then backward-filled.  The `getD 0` default is unreachable: the
head bucket of a nonempty sorted list is populated, so the fills leave no
gap. -/
def resampleFill (ps : List (ℚ × ℚ)) : List (ℚ × ℚ) :=
  match ps.head?, ps.getLast? with
  | some p, some q =>
    (((rangeInt (bucketOf p.1) (bucketOf q.1)).zip
        (bfill (ffill ((rangeInt (bucketOf p.1) (bucketOf q.1)).map
          (fun b => meanOpt (bucketVals ps b)))))).map
      (fun bo => (((5 * bo.1 : ℤ) : ℚ), bo.2.getD 0)))
  | _, _ => []

/-- The Series Normalizer (main.py lines 157–161): sort the raw range-query
points by timestamp, then resample at 5-second cadence with mean
aggregation and fill the gaps. -/
def normalizeSeries (pts : List (ℚ × ℚ)) : List (ℚ × ℚ) :=
  resampleFill (sortPoints pts)

/-- The effective CPU-limit divisor (main.py lines 172–178): an empty
instant-query result yields the 0.1 fallback, and a non-positive limit is
replaced by the same fallback. -/
def effectiveLimit (limitRes : Option ℚ) : ℚ :=
  let limit := limitRes.getD (1/10)
  if limit ≤ 0 then 1/10 else limit

/-- The utilization-fraction series `util = s / limit`
(main.py line 181). -/
def utilSeries (pts : List (ℚ × ℚ)) (limitRes : Option ℚ) : List ℚ :=
  (normalizeSeries pts).map (fun p => p.2 / effectiveLimit limitRes)

/-- Model of `ts.shift(k)` on a series whose slots may be `NaN`
(main.py line 110):
`k` leading `NaN`s, then the first `length − k` entries. -/
def shiftOpt (s : List (Option ℚ)) (k : ℕ) : List (Option ℚ) :=
  List.replicate k none ++ s.take (s.length - k)

/-- One row of the concatenated frame `[lag_1 … lag_L, y]` at original
index `i` (main.py lines 110–112): the lag columns are `ts.shift(1) …
ts.shift(L)` read at `i`, the target is the series itself at `i`. -/
def supervisedRow (s : List (Option ℚ)) (lags i : ℕ) : List (Option ℚ) × Option ℚ :=
  ((List.range lags).map (fun k => (shiftOpt s (k + 1)).getD i none), s.getD i none)

/-- Row predicate of `dropna`: a row is kept iff every lag cell and the
target are present. -/
def rowComplete (r : List (Option ℚ) × Option ℚ) : Bool :=
  r.1.all (fun o => o.isSome) && r.2.isSome

/-- The rows of the concatenated frame that survive `dropna`
(main.py line 112). -/
def keptRows (ts : List ℚ) (lags : ℕ) : List (List (Option ℚ) × Option ℚ) :=
  ((List.range ts.length).map (supervisedRow (ts.map some) lags)).filter rowComplete

/-- The Feature Builder `make_supervised` (main.py lines 108–114): build the
lag columns by shifting, concatenate with the target, drop incomplete rows,
and return the feature matrix and target vector. -/
def make_supervised (ts : List ℚ) (lags : ℕ) : List (List ℚ) × List ℚ :=
  ((keptRows ts lags).map (fun r => r.1.map (fun o => o.getD 0)),
   (keptRows ts lags).map (fun r => r.2.getD 0))

/-- The test-partition size `ceil(0.2 * n)` chosen by
`train_test_split(..., test_size=0.2)` (main.py lines 198–199). -/
def testCount (n : ℕ) : ℕ := (n + 4) / 5

/-- Mean of feature column `j` of the matrix, as `StandardScaler.fit`
computes it (main.py line 194). -/
def colMean (X : List (List ℚ)) (j : ℕ) : ℚ :=
  (X.map (fun r => r.getD j 0)).sum / (X.length : ℚ)

/-- Population variance of feature column `j`, as `StandardScaler.fit`
computes it. -/
def colVar (X : List (List ℚ)) (j : ℕ) : ℚ :=
  (X.map (fun r => (r.getD j 0 - colMean X j) ^ 2)).sum / (X.length : ℚ)

/-- Model of `StandardScaler(with_mean=True).fit` (main.py lines 193–194):
per-column
mean and scale, where the scale is the square root of the column variance
and a zero-variance column scales by 1 (sklearn's zero guard).  `sq` is the
oracle square-root supplied by the numeric backend. -/
def fitScaler (sq : ℚ → ℚ) (X : List (List ℚ)) (lags : ℕ) : List ℚ × List ℚ :=
  ((List.range lags).map (fun j => colMean X j),
   (List.range lags).map (fun j =>
     if colVar X j = 0 then 1 else sq (colVar X j)))

/-- Model of `scaler.transform` on one row: subtract the column mean, divide
by the column scale (main.py lines 194 and 211). -/
def scalerTransform (ms ss row : List ℚ) : List ℚ :=
  (row.zip (ms.zip ss)).map (fun p => (p.1 - p.2.1) / p.2.2)

/-- The raw latest lag window `[util.iloc[-i] for i in range(1, LAGS+1)]`
(main.py lines 209–210): entry `j` is the value `j+1` positions from the
end of the series. -/
def lastWindow (util : List ℚ) (lags : ℕ) : List ℚ :=
  (List.range lags).map (fun j => util.getD (util.length - 1 - j) 0)

/-- The numeric kernels the loop delegates to sklearn: the float square
root used by `StandardScaler`, and the prediction of the Lasso model fitted
on the (scaled) training rows and targets, applied to one scaled input
row. -/
structure SkOracle where
  sqrtFn : ℚ → ℚ
  predictFn : List (List ℚ) → List ℚ → List ℚ → ℚ

/-- Observable outcome of one loop iteration: what was published to the
gauge (none = no publish), whether `model.fit` ran, the divisor used for
utilization, the raw model prediction, the fitted scaler state, the scaled
prediction input, and the scaled train/test partitions. -/
structure IterationTrace where
  published : Option ℚ
  fitted : Bool
  divisor : Option ℚ
  raw : Option ℚ
  scaler : Option (List ℚ × List ℚ)
  predictInput : Option (List ℚ)
  trainRows : Option (List (List ℚ))
  testRows : Option (List (List ℚ))

/-- The iteration's feature matrix `X` (main.py line 185). -/
def fitX (lags : ℕ) (points : List (ℚ × ℚ)) (limitRes : Option ℚ) : List (List ℚ) :=
  (make_supervised (utilSeries points limitRes) lags).1

/-- The iteration's target vector `y` (main.py line 185). -/
def fitY (lags : ℕ) (points : List (ℚ × ℚ)) (limitRes : Option ℚ) : List ℚ :=
  (make_supervised (utilSeries points limitRes) lags).2

/-- The iteration's scaler state, fit by `scaler.fit_transform(X)` on the
full feature matrix (main.py lines 193–194). -/
def scalerOf (O : SkOracle) (lags : ℕ) (points : List (ℚ × ℚ))
    (limitRes : Option ℚ) : List ℚ × List ℚ :=
  fitScaler O.sqrtFn (fitX lags points limitRes) lags

/-- The scaled feature matrix `Xs` (main.py line 194). -/
def scaledX (O : SkOracle) (lags : ℕ) (points : List (ℚ × ℚ))
    (limitRes : Option ℚ) : List (List ℚ) :=
  (fitX lags points limitRes).map
    (scalerTransform (scalerOf O lags points limitRes).1 (scalerOf O lags points limitRes).2)

/-- The training-partition size of the ordered `train_test_split`
(main.py lines 198–199). -/
def nTrainOf (lags : ℕ) (points : List (ℚ × ℚ)) (limitRes : Option ℚ) : ℕ :=
  (fitX lags points limitRes).length - testCount (fitX lags points limitRes).length

/-- The scaled prediction input `x_last = scaler.transform(x_last_raw)`
(main.py lines 209–211). -/
def xLastOf (O : SkOracle) (lags : ℕ) (points : List (ℚ × ℚ))
    (limitRes : Option ℚ) : List ℚ :=
  scalerTransform (scalerOf O lags points limitRes).1 (scalerOf O lags points limitRes).2
    (lastWindow (utilSeries points limitRes) lags)

/-- The raw model prediction `yhat` before clamping (main.py line 215):
the oracle's Lasso, trained on the scaled training partition, applied to
the scaled latest window. -/
def rawOf (O : SkOracle) (lags : ℕ) (points : List (ℚ × ℚ))
    (limitRes : Option ℚ) : ℚ :=
  O.predictFn ((scaledX O lags points limitRes).take (nTrainOf lags points limitRes))
    ((fitY lags points limitRes).take (nTrainOf lags points limitRes))
    (xLastOf O lags points limitRes)

/-- One iteration of `loop` (main.py lines 126–225), with the two
Prometheus answers as inputs: the flattened usage range-query points and
the optional limit instant-query scalar.  Mirrors the source: empty points
abort the iteration; otherwise normalize, divide by the effective limit,
build the supervised dataset; fewer than 20 rows publishes 0.0 without
fitting; otherwise scale on the full matrix, split 80/20 ordered, fit and
predict via the oracle, clamp to [0, 2], publish. -/
def loopStep (O : SkOracle) (lags : ℕ) (points : List (ℚ × ℚ))
    (limitRes : Option ℚ) : IterationTrace :=
  if points.isEmpty then
    { published := none, fitted := false, divisor := none, raw := none,
      scaler := none, predictInput := none, trainRows := none, testRows := none }
  else if (fitX lags points limitRes).length < 20 then
    { published := some 0, fitted := false,
      divisor := some (effectiveLimit limitRes), raw := none,
      scaler := none, predictInput := none, trainRows := none, testRows := none }
  else
    { published := some (max 0 (min (rawOf O lags points limitRes) 2)), fitted := true,
      divisor := some (effectiveLimit limitRes),
      raw := some (rawOf O lags points limitRes),
      scaler := some (scalerOf O lags points limitRes),
      predictInput := some (xLastOf O lags points limitRes),
      trainRows := some ((scaledX O lags points limitRes).take (nTrainOf lags points limitRes)),
      testRows := some ((scaledX O lags points limitRes).drop (nTrainOf lags points limitRes)) }

/-- The Forecast Publisher's state for the one deployment label: `Set` on
the gauge overwrites, an aborted iteration leaves the stored value alone
(main.py lines 49–53, 190, 223). -/
def updateGauge (prev : Option ℚ) (t : IterationTrace) : Option ℚ :=
  match t.published with
  | none => prev
  | some v => some v

/-- An oracle whose Lasso model predicts the constant `c` and whose square
root is the identity (the numeric values are irrelevant to the structural
properties tested on it). -/
def constOracle (c : ℚ) : SkOracle :=
  ⟨fun q => q, fun _ _ _ => c⟩

/-- A concrete dense usage history: `n` points on the 5-second cadence with
value `i` at timestamp `5 i`. -/
def rampPts (n : ℕ) : List (ℚ × ℚ) :=
  (List.range n).map (fun i => (((5 * i : ℕ) : ℚ), (i : ℚ)))

/- ### Closed form of the Feature Builder -/

theorem replicate_getD_none (k i : ℕ) :
    (List.replicate k (none : Option ℚ)).getD i none = none := by
  rw [List.getD_eq_getElem?_getD, List.getElem?_replicate]
  split <;> rfl

theorem map_some_getD (ts : List ℚ) (i : ℕ) (hi : i < ts.length) :
    (ts.map some).getD i none = some (ts.getD i 0) := by
  rw [List.getD_eq_getElem?_getD, List.getElem?_map,
    List.getElem?_eq_getElem hi, List.getD_eq_getElem?_getD,
    List.getElem?_eq_getElem hi]
  rfl

theorem shiftOpt_getD (ts : List ℚ) (k i : ℕ) (hi : i < ts.length) :
    (shiftOpt (ts.map some) k).getD i none =
      if i < k then none else some (ts.getD (i - k) 0) := by
  unfold shiftOpt
  by_cases h : i < k
  · rw [if_pos h, List.getD_append _ _ _ _ (by simpa using h), replicate_getD_none]
  · rw [if_neg h]
    have hk : k ≤ i := by omega
    rw [List.getD_eq_getElem?_getD,
      List.getElem?_append_right (by simpa using hk), List.length_replicate,
      List.getElem?_take_of_lt (by simp; omega), List.getElem?_map,
      List.getElem?_eq_getElem (show i - k < ts.length by omega),
      List.getD_eq_getElem?_getD,
      List.getElem?_eq_getElem (show i - k < ts.length by omega)]
    rfl

theorem range_filter_le (L : ℕ) : ∀ n : ℕ,
    (List.range n).filter (fun i => decide (L ≤ i)) =
      (List.range (n - L)).map (fun i => i + L)
  | 0 => by simp
  | n + 1 => by
    rw [List.range_succ, List.filter_append, range_filter_le L n]
    by_cases h : L ≤ n
    · rw [Nat.succ_sub h, List.range_succ, List.map_append]
      simp [h, Nat.sub_add_cancel h]
    · have h1 : n + 1 - L = 0 := by omega
      have h2 : n - L = 0 := by omega
      simp [h1, h2, h]

theorem rowComplete_iff (ts : List ℚ) (L i : ℕ) (hi : i < ts.length) :
    rowComplete (supervisedRow (ts.map some) L i) = decide (L ≤ i) := by
  unfold rowComplete supervisedRow
  by_cases h : L ≤ i
  · rw [decide_eq_true h, Bool.and_eq_true]
    constructor
    · rw [List.all_eq_true]
      intro o ho
      obtain ⟨k, hk, rfl⟩ : ∃ k, k < L ∧ (shiftOpt (ts.map some) (k + 1)).getD i none = o := by
        simpa [List.mem_map, List.mem_range] using ho
      rw [shiftOpt_getD ts (k + 1) i hi, if_neg (by omega)]
      rfl
    · rw [map_some_getD ts i hi]
      rfl
  · rw [decide_eq_false h]
    have hall : ((List.range L).map fun k =>
        (shiftOpt (ts.map some) (k + 1)).getD i none).all (fun o => o.isSome) = false := by
      rw [List.all_eq_false]
      refine ⟨(shiftOpt (ts.map some) (i + 1)).getD i none, ?_, ?_⟩
      · exact List.mem_map.mpr ⟨i, List.mem_range.mpr (by omega), rfl⟩
      · rw [shiftOpt_getD ts (i + 1) i hi, if_pos (by omega)]
        simp
    rw [hall, Bool.false_and]

theorem kept_filter_eq (ts : List ℚ) (L : ℕ) :
    keptRows ts L = (List.range (ts.length - L)).map
      (fun i => supervisedRow (ts.map some) L (i + L)) := by
  unfold keptRows
  rw [List.filter_map]
  have hcg : (List.range ts.length).filter
        (rowComplete ∘ supervisedRow (ts.map some) L) =
      (List.range ts.length).filter (fun i => decide (L ≤ i)) :=
    List.filter_congr (fun i hi => rowComplete_iff ts L i (List.mem_range.mp hi))
  rw [hcg, range_filter_le, List.map_map]
  rfl

theorem make_supervised_fst (ts : List ℚ) (L : ℕ) :
    (make_supervised ts L).1 = (List.range (ts.length - L)).map
      (fun i => (List.range L).map (fun j => ts.getD (i + L - 1 - j) 0)) := by
  show (keptRows ts L).map _ = _
  rw [kept_filter_eq, List.map_map]
  apply List.map_congr_left
  intro i hi
  have hi' : i + L < ts.length := by have := List.mem_range.mp hi; omega
  simp only [Function.comp, supervisedRow, List.map_map]
  apply List.map_congr_left
  intro j hj
  have hj' := List.mem_range.mp hj
  rw [Function.comp_apply, shiftOpt_getD ts (j + 1) (i + L) hi', if_neg (by omega)]
  show ts.getD (i + L - (j + 1)) 0 = ts.getD (i + L - 1 - j) 0
  congr 1
  omega

theorem make_supervised_snd (ts : List ℚ) (L : ℕ) :
    (make_supervised ts L).2 = (List.range (ts.length - L)).map
      (fun i => ts.getD (i + L) 0) := by
  show (keptRows ts L).map _ = _
  rw [kept_filter_eq, List.map_map]
  apply List.map_congr_left
  intro i hi
  have hi' : i + L < ts.length := by have := List.mem_range.mp hi; omega
  simp only [Function.comp, supervisedRow]
  rw [map_some_getD ts (i + L) hi']
  rfl

theorem make_supervised_length (ts : List ℚ) (L : ℕ) :
    (make_supervised ts L).1.length = ts.length - L := by
  rw [make_supervised_fst, List.length_map, List.length_range]

theorem getD_map_range {α : Type} (n : ℕ) (f : ℕ → α) (d : α) (i : ℕ) (h : i < n) :
    ((List.range n).map f).getD i d = f i := by
  rw [List.getD_eq_getElem?_getD, List.getElem?_map, List.getElem?_range h]
  rfl

/-- Claim C2: for every dense series of length `N` and lag count `L < N`, the
Feature Builder yields exactly `N − L` rows; row `i`'s target equals
`series[i+L]` and its `lag_(j+1)` feature equals `series[i+L−1−j]`. -/
theorem make_supervised_aligned (s : List ℚ) (L : ℕ) (h : L < s.length) :
    (make_supervised s L).1.length = s.length - L ∧
    (make_supervised s L).2.length = s.length - L ∧
    ∀ i, i < s.length - L →
      (make_supervised s L).2.getD i 0 = s.getD (i + L) 0 ∧
      ∀ j, j < L →
        ((make_supervised s L).1.getD i []).getD j 0 = s.getD (i + L - 1 - j) 0 := by
  refine ⟨make_supervised_length s L, ?_, ?_⟩
  · rw [make_supervised_snd, List.length_map, List.length_range]
  · intro i hi
    constructor
    · rw [make_supervised_snd, getD_map_range _ _ _ _ hi]
    · intro j hj
      rw [make_supervised_fst, getD_map_range _ _ _ _ hi, getD_map_range _ _ _ _ hj]

theorem make_supervised_aligned_witness :
    1 < ([4, 5, 6] : List ℚ).length ∧
    ((make_supervised [4, 5, 6] 1).1.length = ([4, 5, 6] : List ℚ).length - 1 ∧
     (make_supervised [4, 5, 6] 1).2.length = ([4, 5, 6] : List ℚ).length - 1 ∧
     ∀ i, i < ([4, 5, 6] : List ℚ).length - 1 →
       (make_supervised [4, 5, 6] 1).2.getD i 0 = ([4, 5, 6] : List ℚ).getD (i + 1) 0 ∧
       ∀ j, j < 1 →
         ((make_supervised [4, 5, 6] 1).1.getD i []).getD j 0 =
           ([4, 5, 6] : List ℚ).getD (i + 1 - 1 - j) 0) :=
  ⟨by decide, make_supervised_aligned [4, 5, 6] 1 (by decide)⟩

/-- Claim C10: the raw prediction row built in the loop is the feature vector
`make_supervised` would emit for the hypothetical next index: its entry `j`
is the series value `j+1` positions from the end, and appending any next
value `v` to the series makes it exactly the last emitted feature row. -/
theorem lastWindow_aligned (s : List ℚ) (L : ℕ) (h : L ≤ s.length) :
    (∀ j, j < L → (lastWindow s L).getD j 0 = s.getD (s.length - 1 - j) 0) ∧
    ∀ v : ℚ, (make_supervised (s ++ [v]) L).1.getLast? = some (lastWindow s L) := by
  constructor
  · intro j hj
    unfold lastWindow
    rw [getD_map_range _ _ _ _ hj]
  · intro v
    rw [make_supervised_fst]
    have hlen : (s ++ [v]).length - L = (s.length - L) + 1 := by
      rw [List.length_append]
      simp only [List.length_cons, List.length_nil]
      omega
    rw [hlen, List.range_succ, List.map_append]
    simp only [List.map_cons, List.map_nil]
    rw [List.getLast?_concat]
    congr 1
    unfold lastWindow
    apply List.map_congr_left
    intro j hj
    have hj' := List.mem_range.mp hj
    have hidx : s.length - L + L - 1 - j = s.length - 1 - j := by omega
    rw [hidx]
    have hs : 0 < s.length := by omega
    rw [List.getD_eq_getElem?_getD,
      List.getElem?_append_left (show s.length - 1 - j < s.length by omega),
      ← List.getD_eq_getElem?_getD]

theorem lastWindow_aligned_witness :
    2 ≤ ([4, 5, 6] : List ℚ).length ∧
    ((∀ j, j < 2 →
        (lastWindow [4, 5, 6] 2).getD j 0 = ([4, 5, 6] : List ℚ).getD (3 - 1 - j) 0) ∧
     ∀ v : ℚ, (make_supervised ([4, 5, 6] ++ [v]) 2).1.getLast? =
       some (lastWindow [4, 5, 6] 2)) :=
  ⟨by decide, lastWindow_aligned [4, 5, 6] 2 (by decide)⟩

/- ### The Series Normalizer on dense aligned series -/

theorem bucketOf_five_mul (b : ℤ) : bucketOf ((5 * b : ℤ) : ℚ) = b := by
  unfold bucketOf
  have h5 : ((5 * b : ℤ) : ℚ) / 5 = (b : ℚ) := by
    push_cast
    exact mul_div_cancel_left₀ (b : ℚ) (by norm_num)
  rw [h5, Int.floor_intCast]

theorem range_filter_eq_single (i : ℕ) : ∀ n : ℕ, i < n →
    (List.range n).filter (fun j => decide (j = i)) = [i]
  | 0, h => absurd h (by omega)
  | n + 1, h => by
    rw [List.range_succ, List.filter_append]
    by_cases hin : i < n
    · rw [range_filter_eq_single i n hin]
      have hn : (List.filter (fun j => decide (j = i)) [n]) = [] := by
        rw [List.filter_cons, if_neg (by simp; omega)]
        rfl
      rw [hn, List.append_nil]
    · have hni : n = i := by omega
      subst hni
      have h1 : (List.range n).filter (fun j => decide (j = n)) = [] := by
        rw [List.filter_eq_nil_iff]
        intro a ha
        simp only [decide_eq_true_eq]
        have := List.mem_range.mp ha
        omega
      rw [h1, List.nil_append]
      simp [List.filter]

theorem meanOpt_singleton (x : ℚ) : meanOpt [x] = some x := by
  unfold meanOpt
  rw [if_neg (by simp)]
  norm_num

theorem ffillGo_all_some (c : Option ℚ) :
    ∀ l : List (Option ℚ), (∀ o ∈ l, o.isSome = true) → ffillGo c l = l
  | [], _ => rfl
  | some v :: rest, h => by
    show some v :: ffillGo (some v) rest = some v :: rest
    rw [ffillGo_all_some (some v) rest (fun o ho => h o (List.mem_cons_of_mem _ ho))]
  | none :: rest, h => absurd (h none (List.mem_cons_self _ _)) (by simp)

theorem fill_all_some (l : List (Option ℚ)) (h : ∀ o ∈ l, o.isSome = true) :
    bfill (ffill l) = l := by
  unfold ffill bfill
  rw [ffillGo_all_some none l h,
    ffillGo_all_some none l.reverse (fun o ho => h o (List.mem_reverse.mp ho)),
    List.reverse_reverse]

theorem rangeInt_offset (b0 : ℤ) (m : ℕ) :
    rangeInt b0 (b0 + m) = (List.range (m + 1)).map (fun i : ℕ => b0 + (i : ℤ)) := by
  unfold rangeInt
  have ht : (b0 + (m : ℤ) + 1 - b0).toNat = m + 1 := by omega
  rw [ht]

theorem range_map_head? {α : Type} (m : ℕ) (f : ℕ → α) :
    ((List.range (m + 1)).map f).head? = some (f 0) := by
  rw [List.head?_map, List.range_succ_eq_map]
  rfl

theorem range_map_getLast? {α : Type} (m : ℕ) (f : ℕ → α) :
    ((List.range (m + 1)).map f).getLast? = some (f m) := by
  rw [List.range_succ, List.map_append]
  simp only [List.map_cons, List.map_nil]
  exact List.getLast?_concat _

theorem bucketVals_dense (b0 : ℤ) (m : ℕ) (v : ℕ → ℚ) (i : ℕ) (hi : i < m + 1) :
    bucketVals ((List.range (m + 1)).map
        (fun j : ℕ => (((5 * (b0 + (j : ℤ)) : ℤ) : ℚ), v j))) (b0 + i) = [v i] := by
  unfold bucketVals
  rw [List.filter_map]
  have hcg : (List.range (m + 1)).filter
        ((fun p : ℚ × ℚ => decide (bucketOf p.1 = b0 + i)) ∘
          (fun j : ℕ => (((5 * (b0 + (j : ℤ)) : ℤ) : ℚ), v j))) =
      (List.range (m + 1)).filter (fun j => decide (j = i)) := by
    apply List.filter_congr
    intro j hj
    simp only [Function.comp_apply, bucketOf_five_mul, decide_eq_decide]
    omega
  rw [hcg, range_filter_eq_single i (m + 1) hi]
  rfl

theorem dense_sorted (b0 : ℤ) (n : ℕ) (v : ℕ → ℚ) :
    List.Sorted tsLE ((List.range n).map
      (fun i : ℕ => (((5 * (b0 + (i : ℤ)) : ℤ) : ℚ), v i))) := by
  rw [List.Sorted, List.pairwise_map]
  apply (List.pairwise_lt_range n).imp
  intro a b hab
  show ((5 * (b0 + a) : ℤ) : ℚ) ≤ ((5 * (b0 + b) : ℤ) : ℚ)
  have hz : (5 * (b0 + (a : ℤ)) : ℤ) ≤ 5 * (b0 + (b : ℤ)) := by omega
  exact_mod_cast hz

theorem resampleFill_eq_of (ps : List (ℚ × ℚ)) (p q : ℚ × ℚ)
    (hh : ps.head? = some p) (hl : ps.getLast? = some q) :
    resampleFill ps = (((rangeInt (bucketOf p.1) (bucketOf q.1)).zip
        (bfill (ffill ((rangeInt (bucketOf p.1) (bucketOf q.1)).map
          (fun b => meanOpt (bucketVals ps b)))))).map
      (fun bo => (((5 * bo.1 : ℤ) : ℚ), bo.2.getD 0))) := by
  unfold resampleFill
  rw [hh, hl]

theorem resampleFill_dense (b0 : ℤ) (m : ℕ) (v : ℕ → ℚ) :
    resampleFill ((List.range (m + 1)).map
        (fun i : ℕ => (((5 * (b0 + (i : ℤ)) : ℤ) : ℚ), v i))) =
      (List.range (m + 1)).map (fun i : ℕ => (((5 * (b0 + (i : ℤ)) : ℤ) : ℚ), v i)) := by
  rw [resampleFill_eq_of _ _ _ (range_map_head? m _) (range_map_getLast? m _)]
  have hb0 : bucketOf ((5 * (b0 + (0 : ℕ)) : ℤ) : ℚ) = b0 := by
    rw [bucketOf_five_mul]
    simp
  have hbm : bucketOf ((5 * (b0 + (m : ℕ)) : ℤ) : ℚ) = b0 + m :=
    bucketOf_five_mul _
  rw [hb0, hbm, rangeInt_offset, List.map_map]
  have hmeans : (List.range (m + 1)).map
        ((fun b => meanOpt (bucketVals ((List.range (m + 1)).map
          (fun j : ℕ => (((5 * (b0 + (j : ℤ)) : ℤ) : ℚ), v j))) b)) ∘ (fun i : ℕ => b0 + (i : ℤ))) =
      (List.range (m + 1)).map (fun i => some (v i)) := by
    apply List.map_congr_left
    intro i hi
    simp only [Function.comp_apply]
    rw [bucketVals_dense b0 m v i (List.mem_range.mp hi), meanOpt_singleton]
  rw [hmeans, fill_all_some _ (by
    intro o ho
    obtain ⟨i, _, rfl⟩ := List.mem_map.mp ho
    rfl)]
  rw [List.zip_map', List.map_map]
  apply List.map_congr_left
  intro i hi
  rfl

/- ### Order-insensitivity of the Series Normalizer -/

theorem sorted_le_getLast : ∀ (l : List (ℚ × ℚ)) (hne : l ≠ []),
    List.Sorted tsLE l → ∀ x ∈ l, tsLE x (l.getLast hne)
  | [], hne, _, _, _ => absurd rfl hne
  | [a], _, _, x, hx => by
    obtain rfl : x = a := by simpa using hx
    exact le_refl _
  | a :: b :: t, _, hs, x, hx => by
    rw [List.getLast_cons (List.cons_ne_nil b t)]
    rcases List.mem_cons.mp hx with rfl | hx'
    · exact List.rel_of_sorted_cons hs _ (List.getLast_mem _)
    · exact sorted_le_getLast (b :: t) (List.cons_ne_nil b t) hs.of_cons x hx'

theorem sorted_head_le (a : ℚ × ℚ) (l : List (ℚ × ℚ))
    (hs : List.Sorted tsLE (a :: l)) : ∀ x ∈ a :: l, tsLE a x := by
  intro x hx
  rcases List.mem_cons.mp hx with rfl | hx'
  · exact le_refl _
  · exact List.rel_of_sorted_cons hs _ hx'

theorem perm_sorted_head_ts (p₁ p₂ : ℚ × ℚ) (r₁ r₂ : List (ℚ × ℚ))
    (hp : (p₁ :: r₁).Perm (p₂ :: r₂))
    (h₁ : List.Sorted tsLE (p₁ :: r₁)) (h₂ : List.Sorted tsLE (p₂ :: r₂)) :
    p₁.1 = p₂.1 :=
  le_antisymm
    (sorted_head_le p₁ r₁ h₁ p₂ (hp.mem_iff.mpr (List.mem_cons_self _ _)))
    (sorted_head_le p₂ r₂ h₂ p₁ (hp.mem_iff.mp (List.mem_cons_self _ _)))

theorem perm_sorted_getLast_ts (p₁ p₂ : ℚ × ℚ) (r₁ r₂ : List (ℚ × ℚ))
    (hp : (p₁ :: r₁).Perm (p₂ :: r₂))
    (h₁ : List.Sorted tsLE (p₁ :: r₁)) (h₂ : List.Sorted tsLE (p₂ :: r₂)) :
    ((p₁ :: r₁).getLast (List.cons_ne_nil p₁ r₁)).1 =
      ((p₂ :: r₂).getLast (List.cons_ne_nil p₂ r₂)).1 :=
  le_antisymm
    (sorted_le_getLast _ _ h₂ _ (hp.mem_iff.mp (List.getLast_mem _)))
    (sorted_le_getLast _ _ h₁ _ (hp.mem_iff.mpr (List.getLast_mem _)))

theorem meanOpt_perm {l₁ l₂ : List ℚ} (h : l₁.Perm l₂) : meanOpt l₁ = meanOpt l₂ := by
  unfold meanOpt
  by_cases h1 : l₁ = []
  · subst h1
    rw [h.symm.eq_nil]
  · have h2 : l₂ ≠ [] := fun h2 => h1 (h2 ▸ h).eq_nil
    rw [if_neg (by simpa [List.isEmpty_iff] using h1),
      if_neg (by simpa [List.isEmpty_iff] using h2), h.sum_eq, h.length_eq]

theorem bucketVals_perm {ps₁ ps₂ : List (ℚ × ℚ)} (h : ps₁.Perm ps₂) (b : ℤ) :
    (bucketVals ps₁ b).Perm (bucketVals ps₂ b) :=
  (h.filter _).map _

theorem resampleFill_perm_sorted : ∀ s₁ s₂ : List (ℚ × ℚ), s₁.Perm s₂ →
    List.Sorted tsLE s₁ → List.Sorted tsLE s₂ → resampleFill s₁ = resampleFill s₂
  | [], [], _, _, _ => rfl
  | [], _ :: _, hp, _, _ => absurd hp.nil_eq (by simp)
  | _ :: _, [], hp, _, _ => absurd hp.eq_nil (by simp)
  | p₁ :: r₁, p₂ :: r₂, hp, h₁, h₂ => by
    rw [resampleFill_eq_of (p₁ :: r₁) p₁ ((p₁ :: r₁).getLast (List.cons_ne_nil p₁ r₁)) rfl
        (List.getLast?_eq_getLast _ _),
      resampleFill_eq_of (p₂ :: r₂) p₂ ((p₂ :: r₂).getLast (List.cons_ne_nil p₂ r₂)) rfl
        (List.getLast?_eq_getLast _ _),
      show bucketOf p₁.1 = bucketOf p₂.1 from by
        rw [perm_sorted_head_ts p₁ p₂ r₁ r₂ hp h₁ h₂],
      show bucketOf ((p₁ :: r₁).getLast (List.cons_ne_nil p₁ r₁)).1 =
          bucketOf ((p₂ :: r₂).getLast (List.cons_ne_nil p₂ r₂)).1 from by
        rw [perm_sorted_getLast_ts p₁ p₂ r₁ r₂ hp h₁ h₂],
      List.map_congr_left (fun b _ => meanOpt_perm (bucketVals_perm hp b))]

theorem rangeInt_self (a : ℤ) : rangeInt a a = [a] := by
  unfold rangeInt
  have ht : (a + 1 - a).toNat = 1 := by omega
  rw [ht]
  show [a + ((0 : ℕ) : ℤ)] = [a]
  norm_num

/-- Claim C7 (amended): series normalization is insensitive to the input
order of the raw points (it sorts by timestamp first), but for points
sharing a duplicate timestamp the retained value is their MEAN — the
bucket aggregation averages them — not the last-written value. -/
theorem normalize_sorts_and_averages_duplicates (pts₁ pts₂ : List (ℚ × ℚ))
    (t v w : ℚ) (hperm : pts₁.Perm pts₂) :
    normalizeSeries pts₁ = normalizeSeries pts₂ ∧
    normalizeSeries [(t, v), (t, w)] =
      [(((5 * bucketOf t : ℤ) : ℚ), (v + w) / 2)] := by
  constructor
  · unfold normalizeSeries sortPoints
    exact resampleFill_perm_sorted _ _
      (((List.perm_insertionSort tsLE pts₁).trans hperm).trans
        (List.perm_insertionSort tsLE pts₂).symm)
      (List.sorted_insertionSort tsLE pts₁) (List.sorted_insertionSort tsLE pts₂)
  · have hsorted : List.Sorted tsLE [(t, v), (t, w)] := by
      rw [List.sorted_cons]
      refine ⟨?_, List.sorted_singleton _⟩
      intro b hb
      obtain rfl : b = (t, w) := by simpa using hb
      exact le_refl t
    unfold normalizeSeries sortPoints
    rw [hsorted.insertionSort_eq,
      resampleFill_eq_of [(t, v), (t, w)] (t, v) (t, w) rfl rfl, rangeInt_self]
    have hvals : bucketVals [(t, v), (t, w)] (bucketOf t) = [v, w] := by
      unfold bucketVals
      rw [List.filter_cons, if_pos (by simp), List.filter_cons, if_pos (by simp)]
      rfl
    simp only [List.map_cons, List.map_nil, hvals]
    have hmean : meanOpt [v, w] = some ((v + w) / 2) := by
      unfold meanOpt
      rw [if_neg (by simp)]
      norm_num
    rw [hmean]
    show [(((5 * bucketOf t : ℤ) : ℚ), (v + w) / 2)] = _
    rfl

theorem normalize_sorts_and_averages_duplicates_witness :
    ([((5 : ℚ), (2 : ℚ)), ((0 : ℚ), (1 : ℚ))].Perm
      [((0 : ℚ), (1 : ℚ)), ((5 : ℚ), (2 : ℚ))]) ∧
    (normalizeSeries [((5 : ℚ), (2 : ℚ)), ((0 : ℚ), (1 : ℚ))] =
        normalizeSeries [((0 : ℚ), (1 : ℚ)), ((5 : ℚ), (2 : ℚ))] ∧
      normalizeSeries [((0 : ℚ), (1 : ℚ)), ((0 : ℚ), (3 : ℚ))] =
        [(((5 * bucketOf 0 : ℤ) : ℚ), ((1 : ℚ) + 3) / 2)]) :=
  ⟨List.Perm.swap ((0 : ℚ), (1 : ℚ)) ((5 : ℚ), (2 : ℚ)) [],
   normalize_sorts_and_averages_duplicates _ _ 0 1 3
     (List.Perm.swap ((0 : ℚ), (1 : ℚ)) ((5 : ℚ), (2 : ℚ)) [])⟩

/-- Claim C7 counterexample: the points `(ts 0, value 1)` and `(ts 0, value
3)` share a timestamp; the normalizer retains their mean 2 for that
timestamp, not the last-written value 3. -/
theorem duplicate_ts_not_last_write :
    normalizeSeries [((0 : ℚ), (1 : ℚ)), ((0 : ℚ), (3 : ℚ))] = [((0 : ℚ), (2 : ℚ))] ∧
    ((2 : ℚ) ≠ 3) :=
  ⟨by with_unfolding_all rfl, by norm_num⟩

/-- Claim C8: normalization is idempotent: a series that is already dense and
already on the normalizer's uniform 5-second cadence (one point per
consecutive bucket, timestamps on the bucket boundaries) is returned
unchanged by the sort + resample + gap-fill step. -/
theorem normalize_idempotent (b0 : ℤ) (n : ℕ) (v : ℕ → ℚ) :
    normalizeSeries ((List.range n).map
        (fun i : ℕ => (((5 * (b0 + (i : ℤ)) : ℤ) : ℚ), v i))) =
      (List.range n).map (fun i : ℕ => (((5 * (b0 + (i : ℤ)) : ℤ) : ℚ), v i)) := by
  unfold normalizeSeries sortPoints
  rw [(dense_sorted b0 n v).insertionSort_eq]
  cases n with
  | zero => rfl
  | succ m => exact resampleFill_dense b0 m v

/-- Claim C1: whenever the model's prediction step produces a raw forecast
`r`, the value published to the forecast gauge is `max 0 (min r 2)`. -/
theorem published_clamps_raw (O : SkOracle) (lags : ℕ) (pts : List (ℚ × ℚ))
    (lim : Option ℚ) (r : ℚ) (h : (loopStep O lags pts lim).raw = some r) :
    (loopStep O lags pts lim).published = some (max 0 (min r 2)) := by
  unfold loopStep at h ⊢
  split at h
  · exact absurd h (by simp)
  · split at h
    · exact absurd h (by simp)
    · next h1 h2 =>
      rw [if_neg h1, if_neg h2]
      obtain rfl : rawOf O lags pts lim = r := by
        simpa using h
      rfl

theorem published_clamps_raw_witness :
    ((loopStep (constOracle (-1)) 1 (rampPts 21) (some 1)).raw = some (-1) ∧
     (loopStep (constOracle (-1)) 1 (rampPts 21) (some 1)).published = some 0) ∧
    ((loopStep (constOracle (1/2)) 1 (rampPts 21) (some 1)).raw = some (1/2) ∧
     (loopStep (constOracle (1/2)) 1 (rampPts 21) (some 1)).published = some (1/2)) ∧
    ((loopStep (constOracle 5) 1 (rampPts 21) (some 1)).raw = some 5 ∧
     (loopStep (constOracle 5) 1 (rampPts 21) (some 1)).published = some 2) := by
  have h1 : (loopStep (constOracle (-1)) 1 (rampPts 21) (some 1)).raw = some (-1) :=
    of_decide_eq_true (by with_unfolding_all rfl)
  have h2 : (loopStep (constOracle (1/2)) 1 (rampPts 21) (some 1)).raw = some (1/2) :=
    of_decide_eq_true (by with_unfolding_all rfl)
  have h3 : (loopStep (constOracle 5) 1 (rampPts 21) (some 1)).raw = some 5 :=
    of_decide_eq_true (by with_unfolding_all rfl)
  refine ⟨⟨h1, ?_⟩, ⟨h2, ?_⟩, ⟨h3, ?_⟩⟩
  · rw [published_clamps_raw (constOracle (-1)) 1 (rampPts 21) (some 1) (-1) h1]
    norm_num
  · rw [published_clamps_raw (constOracle (1/2)) 1 (rampPts 21) (some 1) (1/2) h2]
    norm_num
  · rw [published_clamps_raw (constOracle 5) 1 (rampPts 21) (some 1) 5 h3]
    norm_num

/-- Claim C3: an iteration whose supervised dataset has fewer than 20 rows
(including the empty dataset when the lag count exceeds the series length)
does not fit a model and publishes exactly 0.0. -/
theorem few_rows_publish_zero (O : SkOracle) (lags : ℕ) (pts : List (ℚ × ℚ))
    (lim : Option ℚ) (hne : pts ≠ []) (hlen : (fitX lags pts lim).length < 20) :
    (loopStep O lags pts lim).published = some 0 ∧
    (loopStep O lags pts lim).fitted = false := by
  unfold loopStep
  rw [if_neg (by simpa [List.isEmpty_iff] using hne), if_pos hlen]
  exact ⟨rfl, rfl⟩

theorem few_rows_publish_zero_witness :
    ([((0 : ℚ), (7 : ℚ))] ≠ ([] : List (ℚ × ℚ))) ∧
    (fitX 60 [((0 : ℚ), (7 : ℚ))] (some 1)).length < 20 ∧
    ((loopStep (constOracle 9) 60 [((0 : ℚ), (7 : ℚ))] (some 1)).published = some 0 ∧
     (loopStep (constOracle 9) 60 [((0 : ℚ), (7 : ℚ))] (some 1)).fitted = false) :=
  ⟨by simp, of_decide_eq_true (by with_unfolding_all rfl),
   few_rows_publish_zero (constOracle 9) 60 [((0 : ℚ), (7 : ℚ))] (some 1) (by simp)
     (of_decide_eq_true (by with_unfolding_all rfl))⟩

/-- Claim C4: an iteration whose usage range query returned an empty point
list publishes nothing, and the publisher's previously stored value (if
any) is left unchanged. -/
theorem empty_points_preserve_gauge (O : SkOracle) (lags : ℕ) (lim : Option ℚ)
    (prev : Option ℚ) :
    (loopStep O lags [] lim).published = none ∧
    updateGauge prev (loopStep O lags [] lim) = prev :=
  ⟨rfl, rfl⟩

/-- Claim C5: when the instant limit query returns 0, a negative value, or an
empty result, the divisor used for the utilization fraction is the 0.1
fallback constant, and the iteration still publishes (no abort). -/
theorem nonpositive_limit_uses_fallback (O : SkOracle) (lags : ℕ)
    (pts : List (ℚ × ℚ)) (lim : Option ℚ) (hne : pts ≠ [])
    (hl : lim = none ∨ ∃ l, lim = some l ∧ l ≤ 0) :
    (loopStep O lags pts lim).divisor = some (1/10) ∧
    ((loopStep O lags pts lim).published).isSome = true := by
  have heff : effectiveLimit lim = 1/10 := by
    rcases hl with rfl | ⟨l, rfl, hl0⟩
    · unfold effectiveLimit
      simp only [Option.getD_none]
      rw [if_neg (by norm_num)]
    · unfold effectiveLimit
      simp only [Option.getD_some]
      rw [if_pos hl0]
  unfold loopStep
  rw [if_neg (by simpa [List.isEmpty_iff] using hne)]
  by_cases h20 : (fitX lags pts lim).length < 20
  · rw [if_pos h20]
    exact ⟨by rw [heff], rfl⟩
  · rw [if_neg h20]
    exact ⟨by rw [heff], rfl⟩

/-- Claim C6 (amended): in every iteration that fits a model, the scaler's
per-feature mean and scale are computed from the FULL feature matrix —
training and test rows together, via `fit_transform(X)` before the split —
and that same scaler state transforms both the test rows (the test
partition is sliced from the fully transformed matrix) and the
latest-window prediction input. -/
theorem scaler_fit_on_full_matrix (O : SkOracle) (lags : ℕ) (pts : List (ℚ × ℚ))
    (lim : Option ℚ) (hne : pts ≠ []) (hfit : ¬ (fitX lags pts lim).length < 20) :
    (loopStep O lags pts lim).scaler =
      some (fitScaler O.sqrtFn (fitX lags pts lim) lags) ∧
    (loopStep O lags pts lim).predictInput =
      some (scalerTransform (fitScaler O.sqrtFn (fitX lags pts lim) lags).1
        (fitScaler O.sqrtFn (fitX lags pts lim) lags).2
        (lastWindow (utilSeries pts lim) lags)) ∧
    (loopStep O lags pts lim).testRows =
      some (((fitX lags pts lim).map
        (scalerTransform (fitScaler O.sqrtFn (fitX lags pts lim) lags).1
          (fitScaler O.sqrtFn (fitX lags pts lim) lags).2)).drop
            (nTrainOf lags pts lim)) := by
  unfold loopStep
  rw [if_neg (by simpa [List.isEmpty_iff] using hne), if_neg hfit]
  exact ⟨rfl, rfl, rfl⟩

theorem scaler_fit_on_full_matrix_witness :
    (rampPts 21 ≠ []) ∧
    (¬ (fitX 1 (rampPts 21) (some 1)).length < 20) ∧
    ((loopStep (constOracle 0) 1 (rampPts 21) (some 1)).scaler =
        some (fitScaler (constOracle 0).sqrtFn (fitX 1 (rampPts 21) (some 1)) 1) ∧
      (loopStep (constOracle 0) 1 (rampPts 21) (some 1)).predictInput =
        some (scalerTransform (fitScaler (constOracle 0).sqrtFn (fitX 1 (rampPts 21) (some 1)) 1).1
          (fitScaler (constOracle 0).sqrtFn (fitX 1 (rampPts 21) (some 1)) 1).2
          (lastWindow (utilSeries (rampPts 21) (some 1)) 1)) ∧
      (loopStep (constOracle 0) 1 (rampPts 21) (some 1)).testRows =
        some (((fitX 1 (rampPts 21) (some 1)).map
          (scalerTransform (fitScaler (constOracle 0).sqrtFn (fitX 1 (rampPts 21) (some 1)) 1).1
            (fitScaler (constOracle 0).sqrtFn (fitX 1 (rampPts 21) (some 1)) 1).2)).drop
              (nTrainOf 1 (rampPts 21) (some 1)))) :=
  ⟨of_decide_eq_true (by with_unfolding_all rfl),
   of_decide_eq_true (by with_unfolding_all rfl),
   scaler_fit_on_full_matrix (constOracle 0) 1 (rampPts 21) (some 1)
     (of_decide_eq_true (by with_unfolding_all rfl))
     (of_decide_eq_true (by with_unfolding_all rfl))⟩

/-- Claim C6 counterexample: a concrete fitting iteration (21 points, lag 1,
limit 1, identity square root) whose scaler state is NOT the one obtained
by fitting on the training rows only: the full-matrix column mean is 19/2
while the training-rows-only column mean is 15/2. -/
theorem scaler_not_train_only :
    (loopStep (constOracle 0) 1 (rampPts 21) (some 1)).scaler ≠
      some (fitScaler (constOracle 0).sqrtFn
        ((fitX 1 (rampPts 21) (some 1)).take (nTrainOf 1 (rampPts 21) (some 1))) 1) := by
  intro h
  have h1 : (loopStep (constOracle 0) 1 (rampPts 21) (some 1)).scaler =
      some ([(19 : ℚ)/2], [(133 : ℚ)/4]) := by with_unfolding_all rfl
  have h2 : some (fitScaler (constOracle 0).sqrtFn
        ((fitX 1 (rampPts 21) (some 1)).take (nTrainOf 1 (rampPts 21) (some 1))) 1) =
      some (([(15 : ℚ)/2], [(85 : ℚ)/4]) : List ℚ × List ℚ) := by with_unfolding_all rfl
  rw [h1, h2] at h
  norm_num at h

/-- Claim C9 (amended): every fitting iteration splits the scaled matrix with
no shuffling and in chronological row order — the training partition is the
first `n − ⌈n/5⌉` rows and the test partition the remaining `⌈n/5⌉` rows
(together they are exactly the scaled matrix); when the row count `n` is
divisible by 5 these are exactly 80% and 20% of the rows. -/
theorem ordered_split_take_drop (O : SkOracle) (lags : ℕ) (pts : List (ℚ × ℚ))
    (lim : Option ℚ) (hne : pts ≠ []) (hfit : ¬ (fitX lags pts lim).length < 20) :
    (loopStep O lags pts lim).trainRows =
      some ((scaledX O lags pts lim).take (nTrainOf lags pts lim)) ∧
    (loopStep O lags pts lim).testRows =
      some ((scaledX O lags pts lim).drop (nTrainOf lags pts lim)) ∧
    (scaledX O lags pts lim).take (nTrainOf lags pts lim) ++
      (scaledX O lags pts lim).drop (nTrainOf lags pts lim) = scaledX O lags pts lim ∧
    nTrainOf lags pts lim =
      (fitX lags pts lim).length - testCount (fitX lags pts lim).length ∧
    (5 ∣ (fitX lags pts lim).length →
      nTrainOf lags pts lim * 5 = 4 * (fitX lags pts lim).length ∧
      testCount (fitX lags pts lim).length * 5 = (fitX lags pts lim).length) := by
  refine ⟨?_, ?_, List.take_append_drop _ _, rfl, ?_⟩
  · unfold loopStep
    rw [if_neg (by simpa [List.isEmpty_iff] using hne), if_neg hfit]
  · unfold loopStep
    rw [if_neg (by simpa [List.isEmpty_iff] using hne), if_neg hfit]
  · intro hdvd
    obtain ⟨k, hk⟩ := hdvd
    unfold nTrainOf testCount
    rw [hk]
    omega

theorem ordered_split_take_drop_witness :
    (rampPts 21 ≠ []) ∧
    (¬ (fitX 1 (rampPts 21) (some 1)).length < 20) ∧
    ((loopStep (constOracle 0) 1 (rampPts 21) (some 1)).trainRows =
        some ((scaledX (constOracle 0) 1 (rampPts 21) (some 1)).take
          (nTrainOf 1 (rampPts 21) (some 1))) ∧
      (loopStep (constOracle 0) 1 (rampPts 21) (some 1)).testRows =
        some ((scaledX (constOracle 0) 1 (rampPts 21) (some 1)).drop
          (nTrainOf 1 (rampPts 21) (some 1))) ∧
      (scaledX (constOracle 0) 1 (rampPts 21) (some 1)).take
          (nTrainOf 1 (rampPts 21) (some 1)) ++
        (scaledX (constOracle 0) 1 (rampPts 21) (some 1)).drop
          (nTrainOf 1 (rampPts 21) (some 1)) = scaledX (constOracle 0) 1 (rampPts 21) (some 1) ∧
      nTrainOf 1 (rampPts 21) (some 1) =
        (fitX 1 (rampPts 21) (some 1)).length - testCount (fitX 1 (rampPts 21) (some 1)).length ∧
      (5 ∣ (fitX 1 (rampPts 21) (some 1)).length →
        nTrainOf 1 (rampPts 21) (some 1) * 5 = 4 * (fitX 1 (rampPts 21) (some 1)).length ∧
        testCount (fitX 1 (rampPts 21) (some 1)).length * 5 =
          (fitX 1 (rampPts 21) (some 1)).length)) :=
  ⟨of_decide_eq_true (by with_unfolding_all rfl),
   of_decide_eq_true (by with_unfolding_all rfl),
   ordered_split_take_drop (constOracle 0) 1 (rampPts 21) (some 1)
     (of_decide_eq_true (by with_unfolding_all rfl))
     (of_decide_eq_true (by with_unfolding_all rfl))⟩

/-- Claim C9 counterexample: a concrete fitting iteration with 21 supervised
rows takes 16 training rows, and 16 is not exactly 80% of 21 (the split is
`ceil`-rounded, not exact, when the row count is not divisible by 5). -/
theorem split_not_exactly_eighty_percent :
    (loopStep (constOracle 0) 1 (rampPts 22) (some 1)).fitted = true ∧
    ((loopStep (constOracle 0) 1 (rampPts 22) (some 1)).trainRows.getD []).length = 16 ∧
    (fitX 1 (rampPts 22) (some 1)).length = 21 ∧
    ¬ (16 * 5 = 4 * 21) :=
  ⟨by with_unfolding_all rfl, of_decide_eq_true (by with_unfolding_all rfl),
   of_decide_eq_true (by with_unfolding_all rfl), by decide⟩

theorem nonpositive_limit_uses_fallback_witness :
    ([((0 : ℚ), (7 : ℚ))] ≠ ([] : List (ℚ × ℚ))) ∧
    ((some (-1) : Option ℚ) = none ∨ ∃ l, (some (-1) : Option ℚ) = some l ∧ l ≤ 0) ∧
    ((loopStep (constOracle 9) 60 [((0 : ℚ), (7 : ℚ))] (some (-1))).divisor = some (1/10) ∧
     ((loopStep (constOracle 9) 60 [((0 : ℚ), (7 : ℚ))] (some (-1))).published).isSome = true) :=
  ⟨by simp, Or.inr ⟨-1, rfl, by norm_num⟩,
   nonpositive_limit_uses_fallback (constOracle 9) 60 [((0 : ℚ), (7 : ℚ))] (some (-1))
     (by simp) (Or.inr ⟨-1, rfl, by norm_num⟩)⟩

end Predictor
